import Mathlib

/-!
Shallow embedding of the LuidFiles backend actor (src/backend/main.mo) and
verification of its chunked-upload / storage-accounting behaviour.

The Motoko actor keeps six mutable maps (users, usersByName, files, chunks,
sessions, shareTokens) and two counters.  We model each map as an association
list with Motoko `Map` get/add/remove semantics, and each public method as a
pure function `St → Except Err (result × St)`.  A `Runtime.trap` aborts the
message and rolls back every state mutation, so a trap is modelled as
`Except.error e` carrying no state; each `Err` constructor corresponds to one
trap message of the source (recorded in a comment next to it).  `Time.now()`
is passed in as an explicit `now : Int` argument where the source reads it.
Blobs are modelled as lists of bytes (`List Nat`).
-/

namespace LuidFiles

/-! ### Map model (Motoko `mo:core/Map` via get / add / remove) -/

def mget {α : Type} {β : Type} [DecidableEq α] : List (α × β) → α → Option β
  | [], _ => none
  | p :: rest, k => if p.1 = k then some p.2 else mget rest k

def mremove {α : Type} {β : Type} [DecidableEq α] : List (α × β) → α → List (α × β)
  | [], _ => []
  | p :: rest, k => if p.1 = k then mremove rest k else p :: mremove rest k

def madd {α : Type} {β : Type} [DecidableEq α] (m : List (α × β)) (k : α) (v : β) :
    List (α × β) :=
  (k, v) :: mremove m k

theorem mget_mremove {α β : Type} [DecidableEq α] (m : List (α × β)) (k k' : α) :
    mget (mremove m k) k' = if k' = k then none else mget m k' := by
  induction m with
  | nil => simp [mremove, mget]
  | cons p rest ih =>
    by_cases hk : k' = k
    · subst hk
      by_cases hpk : p.1 = k'
      · simp [mremove, mget, hpk, ih]
      · simp [mremove, mget, hpk, ih]
    · have hk2 : ¬ k = k' := fun h => hk h.symm
      by_cases hpk : p.1 = k
      · simp [mremove, mget, hpk, hk, hk2, ih]
      · by_cases hpk2 : p.1 = k'
        · simp [mremove, mget, hpk, hk, hpk2, ih]
        · simp [mremove, mget, hpk, hk, hpk2, ih]

theorem mget_madd {α β : Type} [DecidableEq α] (m : List (α × β)) (k k' : α) (v : β) :
    mget (madd m k v) k' = if k' = k then some v else mget m k' := by
  by_cases h : k' = k
  · subst h; simp [madd, mget]
  · have h2 : k ≠ k' := fun hh => h hh.symm
    simp [madd, mget, h2, mget_mremove, h]

/-! ### Decimal rendering

Motoko's `Nat.toText` renders a natural number in decimal.  We embed it as a
fuel-bounded structural recursion (kernel-reducible) and prove it agrees with
`Nat.digits 10`, from which injectivity follows. -/

def natToTextCore : Nat → Nat → List Char
  | 0, _ => []
  | fuel + 1, n =>
    if n = 0 then [] else natToTextCore fuel (n / 10) ++ [Nat.digitChar (n % 10)]

def natToText (n : Nat) : String :=
  if n = 0 then ([Nat.digitChar 0]).asString else (natToTextCore n n).asString

theorem natToTextCore_eq_digits (fuel : Nat) :
    ∀ n : Nat, n ≤ fuel →
      natToTextCore fuel n = ((Nat.digits 10 n).map Nat.digitChar).reverse := by
  induction fuel with
  | zero =>
    intro n hn
    have : n = 0 := Nat.le_zero.mp hn
    subst this
    simp [natToTextCore]
  | succ fuel ih =>
    intro n hn
    by_cases hz : n = 0
    · subst hz; simp [natToTextCore]
    · have hpos : 0 < n := Nat.pos_of_ne_zero hz
      have hdig : Nat.digits 10 n = n % 10 :: Nat.digits 10 (n / 10) :=
        Nat.digits_of_two_le_of_pos (by norm_num) hpos
      have hdiv : n / 10 ≤ fuel := by
        have := Nat.div_lt_self hpos (by norm_num : 1 < 10)
        omega
      simp only [natToTextCore, hz, if_false, ih (n / 10) hdiv, hdig,
        List.map_cons, List.reverse_cons]

theorem digitChar_inj_lt :
    ∀ a, a < 10 → ∀ b, b < 10 → Nat.digitChar a = Nat.digitChar b → a = b := by
  decide

theorem map_digitChar_inj :
    ∀ (l1 l2 : List Nat), (∀ x ∈ l1, x < 10) → (∀ x ∈ l2, x < 10) →
      l1.map Nat.digitChar = l2.map Nat.digitChar → l1 = l2
  | [], [], _, _, _ => rfl
  | [], _ :: _, _, _, h => by simp at h
  | _ :: _, [], _, _, h => by simp at h
  | a :: l1, b :: l2, h1, h2, h => by
    simp only [List.map_cons, List.cons.injEq] at h
    have hab : a = b :=
      digitChar_inj_lt a (h1 a (by simp)) b (h2 b (by simp)) h.1
    have htl : l1 = l2 :=
      map_digitChar_inj l1 l2 (fun x hx => h1 x (by simp [hx]))
        (fun x hx => h2 x (by simp [hx])) h.2
    rw [hab, htl]

theorem asString_data (l : List Char) : (l.asString).data = l := rfl

theorem natToText_data_pos {n : Nat} (hz : n ≠ 0) :
    (natToText n).data = ((Nat.digits 10 n).map Nat.digitChar).reverse := by
  simp [natToText, hz, natToTextCore_eq_digits n n (Nat.le_refl n), asString_data]

theorem natToText_data_zero : (natToText 0).data = [Nat.digitChar 0] := rfl

theorem digits_ne_zero_of_render_zero {n : Nat} (hz : n ≠ 0)
    (h : ((Nat.digits 10 n).map Nat.digitChar).reverse = [Nat.digitChar 0]) : False := by
  have h2 : (Nat.digits 10 n).map Nat.digitChar = [Nat.digitChar 0] := by
    have := congrArg List.reverse h
    simpa using this
  have h3 : Nat.digits 10 n = [0] := by
    have : ([0] : List Nat).map Nat.digitChar = [Nat.digitChar 0] := by simp
    refine map_digitChar_inj _ _
      (fun x hx => Nat.digits_lt_base (by norm_num) hx)
      (fun x hx => by simp at hx; omega) (h2.trans this.symm)
  have h4 : n = 0 := by
    have := Nat.ofDigits_digits 10 n
    rw [h3] at this
    simpa [Nat.ofDigits] using this.symm
  exact hz h4

theorem natToText_data_inj {m n : Nat}
    (h : (natToText m).data = (natToText n).data) : m = n := by
  by_cases hm : m = 0
  · by_cases hn : n = 0
    · rw [hm, hn]
    · subst hm
      rw [natToText_data_zero, natToText_data_pos hn] at h
      exact absurd h.symm (fun hh => digits_ne_zero_of_render_zero hn hh)
  · by_cases hn : n = 0
    · subst hn
      rw [natToText_data_pos hm, natToText_data_zero] at h
      exact absurd h (fun hh => digits_ne_zero_of_render_zero hm hh)
    · rw [natToText_data_pos hm, natToText_data_pos hn] at h
      have h2 : (Nat.digits 10 m).map Nat.digitChar = (Nat.digits 10 n).map Nat.digitChar :=
        List.reverse_injective h
      have h3 : Nat.digits 10 m = Nat.digits 10 n :=
        map_digitChar_inj _ _
          (fun x hx => Nat.digits_lt_base (by norm_num) hx)
          (fun x hx => Nat.digits_lt_base (by norm_num) hx) h2
      exact Nat.digits.injective 10 h3

/-! ### Chunk keys -/

/-- Source: `func chunkKey(fileId, index) : Text = fileId.toText() # "_" # index.toText()`. -/
def chunkKey (fileId index : Nat) : String :=
  natToText fileId ++ "_" ++ natToText index

theorem string_data_append (a b : String) : (a ++ b).data = a.data ++ b.data := by
  cases a; cases b; rfl

theorem chunkKey_inj_right {f i j : Nat} (h : chunkKey f i = chunkKey f j) : i = j := by
  have hd := congrArg String.data h
  simp only [chunkKey, string_data_append, List.append_assoc] at hd
  have h2 : (natToText i).data = (natToText j).data :=
    List.append_cancel_left (List.append_cancel_left hd)
  exact natToText_data_inj h2

theorem chunkKey_ne_right {f i j : Nat} (h : i ≠ j) : chunkKey f i ≠ chunkKey f j :=
  fun hk => h (chunkKey_inj_right hk)

/-! ### Data model (types from src/backend/main.mo) -/

inductive Role where
  | Master
  | Staff
  | Client
  deriving DecidableEq, Repr

inductive UploadStatus where
  | Pending
  | Complete
  deriving DecidableEq, Repr

structure InternalUser where
  id : Nat
  username : String
  passwordHash : String
  role : Role
  gbAllocation : Nat
  quota : Nat
  usedBytes : Nat
  deriving DecidableEq, Repr

structure File where
  fileId : Nat
  owner : Nat
  filename : String
  mimeType : String
  totalSize : Nat
  totalChunks : Nat
  status : UploadStatus
  created : Int
  shareToken : Option String
  deriving DecidableEq, Repr

/-- A chunk blob, modelled as a list of bytes. -/
abbrev Chunk := List Nat

structure Session where
  userId : Nat
  token : String
  created : Int
  lastActive : Int
  deriving DecidableEq, Repr

/-- The actor's mutable state: the six maps and the two id counters. -/
structure St where
  users : List (Nat × InternalUser)
  usersByName : List (String × Nat)
  files : List (Nat × File)
  chunks : List (String × Chunk)
  sessions : List (String × Session)
  shareTokens : List (String × Nat)
  userIdCounter : Nat
  fileIdCounter : Nat
  deriving DecidableEq, Repr

/-- Trap outcomes.  Each constructor corresponds to one `Runtime.trap`
message in the source:
* `invalidSession` — "Unauthorized: Invalid or expired session token"
* `userNotFoundForSession` — "Unauthorized: User not found for session"
* `fileNotFound` — "File not found"
* `notFileOwner` — "Unauthorized: Not the file owner"
* `missingChunk i` — "Missing chunk: " # i.toText()
* `quotaExceeded` — "Storage quota exceeded"
* `provideSessionOrShareToken` — "Unauthorized: Provide a session or share token"
* `unauthorized` — "Unauthorized" (the final guard in downloadFile; unreachable,
  every path reaching it has `authorised = true`)
* `noChunksFound` — "No chunks found. Cannot assemble file."
-/
inductive Err where
  | invalidSession
  | userNotFoundForSession
  | fileNotFound
  | notFileOwner
  | missingChunk (i : Nat)
  | quotaExceeded
  | provideSessionOrShareToken
  | unauthorized
  | noChunksFound
  deriving DecidableEq, Repr

/-- The "Unauthorized"-class trap messages (those whose text starts with
"Unauthorized"). -/
def Err.isAuthError : Err → Bool
  | Err.invalidSession => true
  | Err.userNotFoundForSession => true
  | Err.notFileOwner => true
  | Err.provideSessionOrShareToken => true
  | Err.unauthorized => true
  | _ => false

/-! ### Operations (public methods of the actor, src/backend/main.mo)

Each shared method is a function of the pre-state; a `Runtime.trap` rolls the
message back, so it is modelled as `Except.error` carrying no state. -/

/-- Source: `func requireSession(token) : InternalUser` (lines 100-110). -/
def requireSession (st : St) (token : String) : Except Err InternalUser :=
  match mget st.sessions token with
  | none => Except.error Err.invalidSession
  | some session =>
    match mget st.users session.userId with
    | none => Except.error Err.userNotFoundForSession
    | some user => Except.ok user

/-- Source: `createToken(seed)` (lines 91-94); `Time.now()` passed in as `now`. -/
def createToken (seed : String) (now : Int) : String :=
  seed ++ toString now ++ toString now

/-- Source: `public shared func initUpload(token, filename, mimeType, totalSize,
totalChunks) : async FileId` (lines 337-356). -/
def initUpload (st : St) (token filename mimeType : String)
    (totalSize totalChunks : Nat) (now : Int) : Except Err (Nat × St) :=
  match requireSession st token with
  | Except.error e => Except.error e
  | Except.ok user =>
    if user.usedBytes + totalSize > user.quota then
      Except.error Err.quotaExceeded
    else
      let fid := st.fileIdCounter + 1
      let f : File := {
        fileId := fid
        owner := user.id
        filename := filename
        mimeType := mimeType
        totalSize := totalSize
        totalChunks := totalChunks
        status := UploadStatus.Pending
        created := now
        shareToken := none }
      Except.ok (fid, { st with fileIdCounter := fid, files := madd st.files fid f })

/-- The progress count recomputed by `uploadChunk` (lines 368-374): scan of
indices `0..totalChunks-1`, counting those present in the chunk map. -/
def countPresent (ch : List (String × Chunk)) (fileId totalChunks : Nat) : Nat :=
  (List.range totalChunks).countP (fun i => (mget ch (chunkKey fileId i)).isSome)

/-- Source: `public shared func uploadChunk(token, fileId, chunkIndex, chunkData)
: async Nat` (lines 359-378). -/
def uploadChunk (st : St) (token : String) (fileId chunkIndex : Nat)
    (chunkData : Chunk) : Except Err (Nat × St) :=
  match requireSession st token with
  | Except.error e => Except.error e
  | Except.ok user =>
    match mget st.files fileId with
    | none => Except.error Err.fileNotFound
    | some f =>
      if f.owner ≠ user.id ∧ user.role ≠ Role.Master ∧ user.role ≠ Role.Staff then
        Except.error Err.notFileOwner
      else
        let chunks2 := madd st.chunks (chunkKey fileId chunkIndex) chunkData
        Except.ok (countPresent chunks2 fileId f.totalChunks, { st with chunks := chunks2 })

/-- The completeness scan of `finalizeUpload` (lines 388-393): the loop traps at
the first index in `0..totalChunks-1` whose chunk is absent. -/
def firstMissingChunk (ch : List (String × Chunk)) (fileId totalChunks : Nat) :
    Option Nat :=
  (List.range totalChunks).find? (fun i => (mget ch (chunkKey fileId i)).isNone)

/-- Source: `public shared func finalizeUpload(token, fileId) : async ()`
(lines 380-403). -/
def finalizeUpload (st : St) (token : String) (fileId : Nat) : Except Err St :=
  match requireSession st token with
  | Except.error e => Except.error e
  | Except.ok user =>
    match mget st.files fileId with
    | none => Except.error Err.fileNotFound
    | some f =>
      if f.owner ≠ user.id ∧ user.role ≠ Role.Master ∧ user.role ≠ Role.Staff then
        Except.error Err.notFileOwner
      else
        match firstMissingChunk st.chunks fileId f.totalChunks with
        | some i => Except.error (Err.missingChunk i)
        | none =>
          let files2 := madd st.files fileId { f with status := UploadStatus.Complete }
          let users2 :=
            match mget st.users f.owner with
            | none => st.users
            | some owner =>
              madd st.users f.owner { owner with usedBytes := owner.usedBytes + f.totalSize }
          Except.ok { st with files := files2, users := users2 }

structure DownloadResult where
  data : Chunk
  mimeType : String
  filename : String
  deriving DecidableEq, Repr

/-- The assembly loop of `downloadFile` (lines 447-453): collects the chunks at
the given indices in order, trapping at the first absent index. -/
def collectParts (ch : List (String × Chunk)) (fileId : Nat) :
    List Nat → Except Err (List Chunk)
  | [] => Except.ok []
  | i :: rest =>
    match mget ch (chunkKey fileId i) with
    | none => Except.error (Err.missingChunk i)
    | some c =>
      match collectParts ch fileId rest with
      | Except.error e => Except.error e
      | Except.ok parts => Except.ok (c :: parts)

/-- The assembly phase of `downloadFile` (lines 447-458): collect chunks
`0..totalChunks-1`, trap `noChunksFound` when no parts were collected, and
return the concatenated bytes with the file's mimeType and filename. -/
def assembleFile (st : St) (f : File) (fileId : Nat) : Except Err DownloadResult :=
  match collectParts st.chunks fileId (List.range f.totalChunks) with
  | Except.error e => Except.error e
  | Except.ok parts =>
    if parts.isEmpty then Except.error Err.noChunksFound
    else Except.ok { data := parts.flatten, mimeType := f.mimeType, filename := f.filename }

/-- Source: `public query func downloadFile(fileId, token, shareToken)`
(lines 417-461).  The source's trailing `if (not authorised) trap
"Unauthorized"` is unreachable (every path reaching it set `authorised`),
so the embedding proceeds to assembly directly on the granting paths. -/
def downloadFile (st : St) (fileId : Nat) (token : Option String)
    (shareTok : Option String) : Except Err DownloadResult :=
  match mget st.files fileId with
  | none => Except.error Err.fileNotFound
  | some f =>
    let authorised : Bool :=
      match shareTok with
      | some s =>
        match mget st.shareTokens s with
        | some fid => decide (fid = fileId)
        | none => false
      | none => false
    if authorised then assembleFile st f fileId
    else
      match token with
      | none => Except.error Err.provideSessionOrShareToken
      | some t =>
        match requireSession st t with
        | Except.error e => Except.error e
        | Except.ok user =>
          if f.owner = user.id ∨ user.role = Role.Master ∨ user.role = Role.Staff then
            assembleFile st f fileId
          else
            Except.error Err.notFileOwner

/-- Source: `public shared func deleteFile(token, fileId) : async ()`
(lines 464-489). -/
def deleteFile (st : St) (token : String) (fileId : Nat) : Except Err St :=
  match requireSession st token with
  | Except.error e => Except.error e
  | Except.ok user =>
    match mget st.files fileId with
    | none => Except.error Err.fileNotFound
    | some f =>
      if f.owner ≠ user.id ∧ user.role ≠ Role.Master ∧ user.role ≠ Role.Staff then
        Except.error Err.notFileOwner
      else
        let chunks2 :=
          (List.range f.totalChunks).foldl (fun ch i => mremove ch (chunkKey fileId i)) st.chunks
        let shareTokens2 :=
          match f.shareToken with
          | some s => mremove st.shareTokens s
          | none => st.shareTokens
        let files2 := mremove st.files fileId
        let users2 :=
          match mget st.users f.owner with
          | none => st.users
          | some owner =>
            let newUsed :=
              if owner.usedBytes ≥ f.totalSize then owner.usedBytes - f.totalSize else 0
            madd st.users f.owner { owner with usedBytes := newUsed }
        Except.ok { st with
          chunks := chunks2, shareTokens := shareTokens2, files := files2, users := users2 }

/-- The seed text of the share token: `"share" # fileId.toText() # Time.now().toText()`. -/
def shareSeed (fileId : Nat) (now : Int) : String :=
  let sharePrefixText : String := "share"
  sharePrefixText ++ natToText fileId ++ toString now

/-- Source: `public shared func generateShareLink(token, fileId) : async Text`
(lines 492-511). -/
def generateShareLink (st : St) (token : String) (fileId : Nat) (now : Int) :
    Except Err (String × St) :=
  match requireSession st token with
  | Except.error e => Except.error e
  | Except.ok user =>
    match mget st.files fileId with
    | none => Except.error Err.fileNotFound
    | some f =>
      if f.owner ≠ user.id ∧ user.role ≠ Role.Master ∧ user.role ≠ Role.Staff then
        Except.error Err.notFileOwner
      else
        match f.shareToken with
        | some s => Except.ok (s, st)
        | none =>
          let s := createToken (shareSeed fileId now) now
          Except.ok (s, { st with
            files := madd st.files fileId { f with shareToken := some s }
            shareTokens := madd st.shareTokens s fileId })

/-! ### Supporting lemmas -/

theorem mget_madd_madd {α β : Type} [DecidableEq α] (m : List (α × β)) (k : α)
    (v : β) (k' : α) :
    mget (madd (madd m k v) k v) k' = mget (madd m k v) k' := by
  by_cases h : k' = k <;> simp [mget_madd, h]

theorem mget_madd_self {α β : Type} [DecidableEq α] (m : List (α × β)) (k : α)
    (v : β) : mget (madd m k v) k = some v := by
  simp [mget_madd]

theorem find?_range_minimal (p : Nat → Bool) :
    ∀ N k : Nat, (List.range N).find? p = some k →
      p k = true ∧ k < N ∧ ∀ j < k, p j = false := by
  intro N
  induction N with
  | zero => intro k h; simp at h
  | succ N ih =>
    intro k h
    rw [List.range_succ, List.find?_append] at h
    cases hN : (List.range N).find? p with
    | some k' =>
      rw [hN] at h
      simp only [Option.or_some] at h
      obtain ⟨hp, hlt, hmin⟩ := ih k' hN
      cases h
      exact ⟨hp, Nat.lt_succ_of_lt hlt, hmin⟩
    | none =>
      rw [hN] at h
      simp only [Option.none_or] at h
      have hall : ∀ j, j < N → p j = false := by
        intro j hj
        have := List.find?_eq_none.mp hN j (List.mem_range.mpr hj)
        simpa using this
      cases hpN : p N with
      | true =>
        simp only [List.find?, hpN] at h
        cases h
        exact ⟨hpN, Nat.lt_succ_self N, hall⟩
      | false =>
        simp only [List.find?, hpN] at h
        cases h

theorem find?_range_isSome_of_exists (p : Nat → Bool) (N k : Nat) (hk : k < N)
    (hp : p k = true) : ∃ k', (List.range N).find? p = some k' := by
  cases h : (List.range N).find? p with
  | some k' => exact ⟨k', rfl⟩
  | none =>
    have := List.find?_eq_none.mp h k (List.mem_range.mpr hk)
    simp [hp] at this

theorem firstMissingChunk_eq_none_iff (ch : List (String × Chunk)) (fileId N : Nat) :
    firstMissingChunk ch fileId N = none ↔
      ∀ i, i < N → (mget ch (chunkKey fileId i)).isSome := by
  unfold firstMissingChunk
  rw [List.find?_eq_none]
  constructor
  · intro h i hi
    have := h i (List.mem_range.mpr hi)
    cases hmg : mget ch (chunkKey fileId i) <;> simp [hmg] at this ⊢
  · intro h i hi
    have := h i (List.mem_range.mp hi)
    cases hmg : mget ch (chunkKey fileId i) <;> simp [hmg] at this ⊢

theorem firstMissingChunk_spec (ch : List (String × Chunk)) (fileId N k : Nat)
    (h : firstMissingChunk ch fileId N = some k) :
    k < N ∧ (mget ch (chunkKey fileId k)).isNone ∧
      ∀ j, j < k → (mget ch (chunkKey fileId j)).isSome := by
  obtain ⟨hp, hlt, hmin⟩ := find?_range_minimal _ N k h
  refine ⟨hlt, hp, fun j hj => ?_⟩
  have := hmin j hj
  cases hmg : mget ch (chunkKey fileId j) <;> simp [hmg] at this ⊢

theorem firstMissingChunk_eq_some (ch : List (String × Chunk)) (fileId N k : Nat)
    (hk : k < N) (hmiss : mget ch (chunkKey fileId k) = none)
    (hbelow : ∀ j, j < k → (mget ch (chunkKey fileId j)).isSome) :
    firstMissingChunk ch fileId N = some k := by
  obtain ⟨k', hk'⟩ :=
    find?_range_isSome_of_exists (fun i => (mget ch (chunkKey fileId i)).isNone) N k hk
      (by simp [hmiss])
  obtain ⟨hlt', hmiss', hbelow'⟩ := firstMissingChunk_spec ch fileId N k' hk'
  have hkk : k = k' := by
    rcases Nat.lt_trichotomy k k' with h1 | h1 | h1
    · have := hbelow' k h1
      rw [hmiss] at this
      simp at this
    · exact h1
    · have := hbelow k' h1
      cases hmg : mget ch (chunkKey fileId k') <;> rw [hmg] at this hmiss' <;> simp_all
  rw [hkk]
  exact hk'

theorem countPresent_congr (ch1 ch2 : List (String × Chunk)) (fileId N : Nat)
    (h : ∀ i, i < N → mget ch1 (chunkKey fileId i) = mget ch2 (chunkKey fileId i)) :
    countPresent ch1 fileId N = countPresent ch2 fileId N := by
  unfold countPresent
  apply List.countP_congr
  intro i hi
  rw [h i (List.mem_range.mp hi)]

theorem find?_congr {α : Type} (p q : α → Bool) :
    ∀ l : List α, (∀ x ∈ l, p x = q x) → l.find? p = l.find? q
  | [], _ => rfl
  | a :: l, h => by
    have ha := h a (by simp)
    simp only [List.find?]
    rw [ha]
    cases q a
    · exact find?_congr p q l (fun x hx => h x (by simp [hx]))
    · rfl

theorem firstMissingChunk_congr (ch1 ch2 : List (String × Chunk)) (fileId N : Nat)
    (h : ∀ i, i < N → mget ch1 (chunkKey fileId i) = mget ch2 (chunkKey fileId i)) :
    firstMissingChunk ch1 fileId N = firstMissingChunk ch2 fileId N := by
  unfold firstMissingChunk
  apply find?_congr
  intro i hi
  rw [h i (List.mem_range.mp hi)]

theorem collectParts_congr (ch1 ch2 : List (String × Chunk)) (fileId : Nat) :
    ∀ l : List Nat,
      (∀ i ∈ l, mget ch1 (chunkKey fileId i) = mget ch2 (chunkKey fileId i)) →
      collectParts ch1 fileId l = collectParts ch2 fileId l
  | [], _ => rfl
  | i :: rest, h => by
    have h1 := h i (by simp)
    have h2 := collectParts_congr ch1 ch2 fileId rest (fun j hj => h j (by simp [hj]))
    simp only [collectParts, h1, h2]

theorem collectParts_eq_map (ch : List (String × Chunk)) (fileId : Nat) (cs : Nat → Chunk) :
    ∀ l : List Nat, (∀ i ∈ l, mget ch (chunkKey fileId i) = some (cs i)) →
      collectParts ch fileId l = Except.ok (l.map cs)
  | [], _ => rfl
  | i :: rest, h => by
    have h1 := h i (by simp)
    have h2 := collectParts_eq_map ch fileId cs rest (fun j hj => h j (by simp [hj]))
    simp [collectParts, h1, h2]

theorem collectParts_error (ch : List (String × Chunk)) (fileId : Nat) :
    ∀ (l : List Nat) (e : Err), collectParts ch fileId l = Except.error e →
      ∃ i, e = Err.missingChunk i
  | [], e, h => by simp [collectParts] at h
  | i :: rest, e, h => by
    simp only [collectParts] at h
    cases hmg : mget ch (chunkKey fileId i) with
    | none =>
      rw [hmg] at h
      cases h
      exact ⟨i, rfl⟩
    | some c =>
      rw [hmg] at h
      cases hrest : collectParts ch fileId rest with
      | error e2 =>
        rw [hrest] at h
        cases h
        exact collectParts_error ch fileId rest _ hrest
      | ok parts =>
        rw [hrest] at h
        cases h

theorem mget_foldl_mremove {α γ β : Type} [DecidableEq α] (key : γ → α) :
    ∀ (l : List γ) (m : List (α × β)) (k : α),
      mget (l.foldl (fun ch i => mremove ch (key i)) m) k =
        if l.any (fun i => decide (key i = k)) then none else mget m k
  | [], m, k => by simp
  | a :: l, m, k => by
    simp only [List.foldl_cons, List.any_cons]
    rw [mget_foldl_mremove key l (mremove m (key a)) k]
    by_cases hak : key a = k
    · simp [hak, mget_mremove]
    · have h2 : ¬ k = key a := fun h => hak h.symm
      simp [hak, mget_mremove, h2]

/-! ### Concrete sample data used by the witnesses -/

def wTok : String := "tok"

def wName : String := "doc.txt"

def wMime : String := "text/plain"

def wSess : Session := { userId := 1, token := wTok, created := 0, lastActive := 0 }

def wUser : InternalUser :=
  { id := 1, username := "alice", passwordHash := "pw", role := Role.Client,
    gbAllocation := 5, quota := 10, usedBytes := 0 }

def wFile : File :=
  { fileId := 1, owner := 1, filename := wName, mimeType := wMime, totalSize := 6,
    totalChunks := 2, status := UploadStatus.Pending, created := 0, shareToken := none }

def wSt0 : St :=
  { users := [(1, wUser)], usersByName := [(wUser.username, 1)], files := [],
    chunks := [], sessions := [(wTok, wSess)], shareTokens := [],
    userIdCounter := 1, fileIdCounter := 0 }

/-- `wSt0` with file 1 (two chunks) registered and both chunks uploaded. -/
def wSt1 : St :=
  { wSt0 with
    files := [(1, wFile)]
    chunks := [(chunkKey 1 0, [7]), (chunkKey 1 1, [8, 9])]
    fileIdCounter := 1 }

/-- `wSt0` with file 1 registered and only chunk 1 uploaded (index 0 missing). -/
def wSt2 : St :=
  { wSt0 with
    files := [(1, wFile)]
    chunks := [(chunkKey 1 1, [8, 9])]
    fileIdCounter := 1 }

def wShare : String := "sh1"

/-- `wFile` with its share token set to `wShare`. -/
def wFileS : File := { wFile with shareToken := some wShare }

/-- `wSt0` with file 1 (share token bound), both chunks uploaded. -/
def wSt3 : St :=
  { wSt0 with
    files := [(1, wFileS)]
    chunks := [(chunkKey 1 0, [7]), (chunkKey 1 1, [8, 9])]
    shareTokens := [(wShare, 1)]
    fileIdCounter := 1 }

/-! ### Claims -/

/-- C1: with a valid session and an authorized caller (owner or Master/Staff),
`finalizeUpload` succeeds — and marks the file record `Complete` — iff every
chunk index `0..totalChunks-1` is present in the chunk map; when some index is
absent it fails with `missingChunk k` where `k` is the lowest missing index. -/
theorem finalizeUpload_completeness (st : St) (token : String) (fileId : Nat)
    (sess : Session) (u : InternalUser) (f : File)
    (hsess : mget st.sessions token = some sess)
    (huser : mget st.users sess.userId = some u)
    (hfile : mget st.files fileId = some f)
    (hauth : f.owner = u.id ∨ u.role = Role.Master ∨ u.role = Role.Staff) :
    ((∃ st', finalizeUpload st token fileId = Except.ok st' ∧
        mget st'.files fileId = some { f with status := UploadStatus.Complete }) ↔
      ∀ i, i < f.totalChunks → (mget st.chunks (chunkKey fileId i)).isSome)
    ∧ ∀ k, k < f.totalChunks → mget st.chunks (chunkKey fileId k) = none →
        (∀ j, j < k → (mget st.chunks (chunkKey fileId j)).isSome) →
        finalizeUpload st token fileId = Except.error (Err.missingChunk k) := by
  have hcond : ¬ (f.owner ≠ u.id ∧ u.role ≠ Role.Master ∧ u.role ≠ Role.Staff) := by
    tauto
  simp only [finalizeUpload, requireSession, hsess, huser, hfile]
  rw [if_neg hcond]
  constructor
  · cases hfm : firstMissingChunk st.chunks fileId f.totalChunks with
    | none =>
      constructor
      · intro _
        exact (firstMissingChunk_eq_none_iff _ _ _).mp hfm
      · intro _
        refine ⟨_, rfl, ?_⟩
        simp [mget_madd]
    | some i =>
      constructor
      · rintro ⟨st', hst', _⟩
        cases hst'
      · intro hall
        have hnone := (firstMissingChunk_eq_none_iff st.chunks fileId f.totalChunks).mpr hall
        rw [hfm] at hnone
        cases hnone
  · intro k hk hmiss hbelow
    rw [firstMissingChunk_eq_some st.chunks fileId f.totalChunks k hk hmiss hbelow]

theorem finalizeUpload_completeness_witness :
    (mget wSt1.sessions wTok = some wSess) ∧
    (mget wSt1.users wSess.userId = some wUser) ∧
    (mget wSt1.files 1 = some wFile) ∧
    (wFile.owner = wUser.id ∨ wUser.role = Role.Master ∨ wUser.role = Role.Staff) ∧
    (((∃ st', finalizeUpload wSt1 wTok 1 = Except.ok st' ∧
        mget st'.files 1 = some { wFile with status := UploadStatus.Complete }) ↔
      ∀ i, i < wFile.totalChunks → (mget wSt1.chunks (chunkKey 1 i)).isSome)
    ∧ ∀ k, k < wFile.totalChunks → mget wSt1.chunks (chunkKey 1 k) = none →
        (∀ j, j < k → (mget wSt1.chunks (chunkKey 1 j)).isSome) →
        finalizeUpload wSt1 wTok 1 = Except.error (Err.missingChunk k)) :=
  ⟨by decide, by decide, by decide, by decide,
    finalizeUpload_completeness wSt1 wTok 1 wSess wUser wFile
      (by decide) (by decide) (by decide) (by decide)⟩

/-- C2: with a valid session, `initUpload` fails `quotaExceeded` iff
`usedBytes + totalSize > quota`; at exact equality it succeeds, returning the
fresh fileId `fileIdCounter + 1` bound to a `Pending` record. -/
theorem initUpload_quota_check (st : St) (token filename mimeType : String)
    (totalSize totalChunks : Nat) (now : Int) (sess : Session) (u : InternalUser)
    (hsess : mget st.sessions token = some sess)
    (huser : mget st.users sess.userId = some u) :
    (initUpload st token filename mimeType totalSize totalChunks now =
        Except.error Err.quotaExceeded ↔ u.usedBytes + totalSize > u.quota)
    ∧ (u.usedBytes + totalSize = u.quota →
      ∃ st', initUpload st token filename mimeType totalSize totalChunks now =
          Except.ok (st.fileIdCounter + 1, st') ∧
        mget st'.files (st.fileIdCounter + 1) = some
          { fileId := st.fileIdCounter + 1, owner := u.id, filename := filename,
            mimeType := mimeType, totalSize := totalSize, totalChunks := totalChunks,
            status := UploadStatus.Pending, created := now, shareToken := none }) := by
  simp only [initUpload, requireSession, hsess, huser]
  constructor
  · by_cases hq : u.usedBytes + totalSize > u.quota
    · simp [hq]
    · simp [hq]
  · intro heq
    have hq : ¬ u.usedBytes + totalSize > u.quota := by omega
    rw [if_neg hq]
    refine ⟨_, rfl, ?_⟩
    simp [mget_madd]

theorem initUpload_quota_check_witness :
    (mget wSt0.sessions wTok = some wSess) ∧
    (mget wSt0.users wSess.userId = some wUser) ∧
    ((initUpload wSt0 wTok wName wMime 10 3 0 =
        Except.error Err.quotaExceeded ↔ wUser.usedBytes + 10 > wUser.quota)
    ∧ (wUser.usedBytes + 10 = wUser.quota →
      ∃ st', initUpload wSt0 wTok wName wMime 10 3 0 =
          Except.ok (wSt0.fileIdCounter + 1, st') ∧
        mget st'.files (wSt0.fileIdCounter + 1) = some
          { fileId := wSt0.fileIdCounter + 1, owner := wUser.id, filename := wName,
            mimeType := wMime, totalSize := 10, totalChunks := 3,
            status := UploadStatus.Pending, created := 0, shareToken := none })) :=
  ⟨by decide, by decide,
    initUpload_quota_check wSt0 wTok wName wMime 10 3 0 wSess wUser
      (by decide) (by decide)⟩

/-- C4: with a valid session of an authorized caller and every chunk
`0..totalChunks-1` stored (`totalChunks ≥ 1`, so including single-chunk files),
`downloadFile` returns exactly the concatenation of the stored chunk blobs in
ascending index order, together with the file's mimeType and filename. -/
theorem downloadFile_assembly (st : St) (token : String) (fileId : Nat)
    (sess : Session) (u : InternalUser) (f : File) (cs : Nat → Chunk)
    (hsess : mget st.sessions token = some sess)
    (huser : mget st.users sess.userId = some u)
    (hfile : mget st.files fileId = some f)
    (hauth : f.owner = u.id ∨ u.role = Role.Master ∨ u.role = Role.Staff)
    (hN : 1 ≤ f.totalChunks)
    (hall : ∀ i, i < f.totalChunks → mget st.chunks (chunkKey fileId i) = some (cs i)) :
    downloadFile st fileId (some token) none =
      Except.ok { data := ((List.range f.totalChunks).map cs).flatten,
                  mimeType := f.mimeType, filename := f.filename } := by
  have hcp : collectParts st.chunks fileId (List.range f.totalChunks) =
      Except.ok ((List.range f.totalChunks).map cs) :=
    collectParts_eq_map _ _ _ _ (fun i hi => hall i (List.mem_range.mp hi))
  have hne : ((List.range f.totalChunks).map cs).isEmpty = false := by
    cases hr : (List.range f.totalChunks).map cs with
    | nil =>
      have hlen := congrArg List.length hr
      simp at hlen
      omega
    | cons a l => rfl
  simp only [downloadFile, hfile, requireSession, hsess, huser]
  rw [if_pos hauth]
  simp only [assembleFile, hcp, hne]
  rfl

theorem downloadFile_assembly_witness :
    (mget wSt1.sessions wTok = some wSess) ∧
    (mget wSt1.users wSess.userId = some wUser) ∧
    (mget wSt1.files 1 = some wFile) ∧
    (wFile.owner = wUser.id ∨ wUser.role = Role.Master ∨ wUser.role = Role.Staff) ∧
    (1 ≤ wFile.totalChunks) ∧
    (∀ i, i < wFile.totalChunks →
      mget wSt1.chunks (chunkKey 1 i) = some (if i = 0 then [7] else [8, 9])) ∧
    downloadFile wSt1 1 (some wTok) none =
      Except.ok { data := ((List.range wFile.totalChunks).map
                    (fun i => if i = 0 then [7] else [8, 9])).flatten,
                  mimeType := wFile.mimeType, filename := wFile.filename } :=
  ⟨by decide, by decide, by decide, by decide, by decide, by decide,
    downloadFile_assembly wSt1 wTok 1 wSess wUser wFile
      (fun i => if i = 0 then [7] else [8, 9])
      (by decide) (by decide) (by decide) (by decide) (by decide) (by decide)⟩

/-- C5: chunk upload is an idempotent upsert: with a valid session of an
authorized caller, submitting `(fileId, idx, data)` twice returns the same
`chunksPresentCount` as submitting it once, stores the blob `data` at `idx`
both times, and the chunk map after the second call agrees with the map after
the first call at every chunk key of the file. -/
theorem uploadChunk_idempotent (st : St) (token : String) (fileId idx : Nat)
    (data : Chunk) (sess : Session) (u : InternalUser) (f : File)
    (hsess : mget st.sessions token = some sess)
    (huser : mget st.users sess.userId = some u)
    (hfile : mget st.files fileId = some f)
    (hauth : f.owner = u.id ∨ u.role = Role.Master ∨ u.role = Role.Staff) :
    ∃ n st1 st2,
      uploadChunk st token fileId idx data = Except.ok (n, st1) ∧
      uploadChunk st1 token fileId idx data = Except.ok (n, st2) ∧
      mget st1.chunks (chunkKey fileId idx) = some data ∧
      mget st2.chunks (chunkKey fileId idx) = some data ∧
      ∀ j, mget st2.chunks (chunkKey fileId j) = mget st1.chunks (chunkKey fileId j) := by
  have hcond : ¬ (f.owner ≠ u.id ∧ u.role ≠ Role.Master ∧ u.role ≠ Role.Staff) := by
    tauto
  refine ⟨countPresent (madd st.chunks (chunkKey fileId idx) data) fileId f.totalChunks,
    { st with chunks := madd st.chunks (chunkKey fileId idx) data },
    { st with
      chunks := madd (madd st.chunks (chunkKey fileId idx) data) (chunkKey fileId idx) data },
    ?_, ?_, ?_, ?_, ?_⟩
  · simp only [uploadChunk, requireSession, hsess, huser, hfile]
    rw [if_neg hcond]
  · simp only [uploadChunk, requireSession, hsess, huser, hfile]
    rw [if_neg hcond]
    have hcnt : countPresent
        (madd (madd st.chunks (chunkKey fileId idx) data) (chunkKey fileId idx) data)
        fileId f.totalChunks =
        countPresent (madd st.chunks (chunkKey fileId idx) data) fileId f.totalChunks :=
      countPresent_congr _ _ _ _ (fun i _ => mget_madd_madd _ _ _ _)
    rw [hcnt]
  · simp [mget_madd]
  · simp [mget_madd]
  · intro j
    exact mget_madd_madd _ _ _ _

theorem uploadChunk_idempotent_witness :
    (mget wSt2.sessions wTok = some wSess) ∧
    (mget wSt2.users wSess.userId = some wUser) ∧
    (mget wSt2.files 1 = some wFile) ∧
    (wFile.owner = wUser.id ∨ wUser.role = Role.Master ∨ wUser.role = Role.Staff) ∧
    (∃ n st1 st2,
      uploadChunk wSt2 wTok 1 0 [7] = Except.ok (n, st1) ∧
      uploadChunk st1 wTok 1 0 [7] = Except.ok (n, st2) ∧
      mget st1.chunks (chunkKey 1 0) = some [7] ∧
      mget st2.chunks (chunkKey 1 0) = some [7] ∧
      ∀ j, mget st2.chunks (chunkKey 1 j) = mget st1.chunks (chunkKey 1 j)) :=
  ⟨by decide, by decide, by decide, by decide,
    uploadChunk_idempotent wSt2 wTok 1 0 [7] wSess wUser wFile
      (by decide) (by decide) (by decide) (by decide)⟩

/-- C6: `finalizeUpload` is not idempotent: when every chunk is present, an
authorized caller can finalize the same file twice in succession; both calls
succeed and each credits the owner's `usedBytes` by `totalSize`, so the
owner's `usedBytes` grows by `2 * totalSize` in total. -/
theorem finalizeUpload_not_idempotent (st : St) (token : String) (fileId : Nat)
    (sess : Session) (u : InternalUser) (f : File) (ow : InternalUser)
    (hsess : mget st.sessions token = some sess)
    (huser : mget st.users sess.userId = some u)
    (hfile : mget st.files fileId = some f)
    (hauth : f.owner = u.id ∨ u.role = Role.Master ∨ u.role = Role.Staff)
    (hall : ∀ i, i < f.totalChunks → (mget st.chunks (chunkKey fileId i)).isSome)
    (howner : mget st.users f.owner = some ow) :
    ∃ st1 st2 ow1 ow2,
      finalizeUpload st token fileId = Except.ok st1 ∧
      mget st1.users f.owner = some ow1 ∧
      ow1.usedBytes = ow.usedBytes + f.totalSize ∧
      finalizeUpload st1 token fileId = Except.ok st2 ∧
      mget st2.users f.owner = some ow2 ∧
      ow2.usedBytes = ow.usedBytes + 2 * f.totalSize := by
  have hcond : ¬ (f.owner ≠ u.id ∧ u.role ≠ Role.Master ∧ u.role ≠ Role.Staff) := by
    tauto
  have hfm : firstMissingChunk st.chunks fileId f.totalChunks = none :=
    (firstMissingChunk_eq_none_iff _ _ _).mpr hall
  refine ⟨{ st with
      files := madd st.files fileId { f with status := UploadStatus.Complete }
      users := madd st.users f.owner
        { ow with usedBytes := ow.usedBytes + f.totalSize } },
    { st with
      files := madd (madd st.files fileId { f with status := UploadStatus.Complete })
        fileId { f with status := UploadStatus.Complete }
      users := madd (madd st.users f.owner
          { ow with usedBytes := ow.usedBytes + f.totalSize }) f.owner
        { ow with usedBytes := ow.usedBytes + f.totalSize + f.totalSize } },
    { ow with usedBytes := ow.usedBytes + f.totalSize },
    { ow with usedBytes := ow.usedBytes + f.totalSize + f.totalSize },
    ?_, ?_, ?_, ?_, ?_, ?_⟩
  · simp only [finalizeUpload, requireSession, hsess, huser, hfile]
    rw [if_neg hcond]
    simp only [hfm, howner]
  · simp [mget_madd]
  · rfl
  · obtain ⟨u', hu', hid, hrole⟩ : ∃ u',
        mget (madd st.users f.owner
          { ow with usedBytes := ow.usedBytes + f.totalSize }) sess.userId = some u' ∧
        u'.id = u.id ∧ u'.role = u.role := by
      by_cases hsu : sess.userId = f.owner
      · have hou : ow = u := by
          rw [hsu] at huser
          exact Option.some.inj (howner.symm.trans huser)
        refine ⟨{ ow with usedBytes := ow.usedBytes + f.totalSize }, ?_, ?_, ?_⟩
        · rw [hsu]
          simp [mget_madd]
        · show ow.id = u.id
          rw [hou]
        · show ow.role = u.role
          rw [hou]
      · refine ⟨u, ?_, rfl, rfl⟩
        rw [mget_madd]
        rw [if_neg hsu]
        exact huser
    have hcond1 : ¬ (f.owner ≠ u'.id ∧ u'.role ≠ Role.Master ∧ u'.role ≠ Role.Staff) := by
      rw [hid, hrole]
      exact hcond
    simp only [finalizeUpload, requireSession, hsess, hu', mget_madd_self]
    rw [if_neg hcond1]
    simp only [hfm, mget_madd_self]
  · simp [mget_madd]
  · show ow.usedBytes + f.totalSize + f.totalSize = ow.usedBytes + 2 * f.totalSize
    omega

theorem finalizeUpload_not_idempotent_witness :
    (mget wSt1.sessions wTok = some wSess) ∧
    (mget wSt1.users wSess.userId = some wUser) ∧
    (mget wSt1.files 1 = some wFile) ∧
    (wFile.owner = wUser.id ∨ wUser.role = Role.Master ∨ wUser.role = Role.Staff) ∧
    (∀ i, i < wFile.totalChunks → (mget wSt1.chunks (chunkKey 1 i)).isSome) ∧
    (mget wSt1.users wFile.owner = some wUser) ∧
    (∃ st1 st2 ow1 ow2,
      finalizeUpload wSt1 wTok 1 = Except.ok st1 ∧
      mget st1.users wFile.owner = some ow1 ∧
      ow1.usedBytes = wUser.usedBytes + wFile.totalSize ∧
      finalizeUpload st1 wTok 1 = Except.ok st2 ∧
      mget st2.users wFile.owner = some ow2 ∧
      ow2.usedBytes = wUser.usedBytes + 2 * wFile.totalSize) :=
  ⟨by decide, by decide, by decide, by decide, by decide, by decide,
    finalizeUpload_not_idempotent wSt1 wTok 1 wSess wUser wFile wUser
      (by decide) (by decide) (by decide) (by decide) (by decide) (by decide)⟩

/-- C7: for an existing file and an authorized caller, `deleteFile` removes the
chunk entries at indices `0..totalChunks-1`, removes the share-token binding if
one exists, removes the file record, and sets the owner's `usedBytes` to
`usedBytes - totalSize` floored at 0 (`Nat` subtraction), with no dependence on
whether the status was `Pending` or `Complete`; a second `deleteFile` on the
same fileId fails `fileNotFound`. -/
theorem deleteFile_spec (st : St) (token : String) (fileId : Nat)
    (sess : Session) (u : InternalUser) (f : File) (ow : InternalUser)
    (hsess : mget st.sessions token = some sess)
    (huser : mget st.users sess.userId = some u)
    (hfile : mget st.files fileId = some f)
    (hauth : f.owner = u.id ∨ u.role = Role.Master ∨ u.role = Role.Staff)
    (howner : mget st.users f.owner = some ow) :
    ∃ st', deleteFile st token fileId = Except.ok st' ∧
      (∀ j, j < f.totalChunks → mget st'.chunks (chunkKey fileId j) = none) ∧
      (∀ s, f.shareToken = some s → mget st'.shareTokens s = none) ∧
      mget st'.files fileId = none ∧
      (∃ ow', mget st'.users f.owner = some ow' ∧
        ow'.usedBytes = ow.usedBytes - f.totalSize) ∧
      deleteFile st' token fileId = Except.error Err.fileNotFound := by
  have hcond : ¬ (f.owner ≠ u.id ∧ u.role ≠ Role.Master ∧ u.role ≠ Role.Staff) := by
    tauto
  refine ⟨{ st with
      users := madd st.users f.owner
        { ow with usedBytes :=
            if ow.usedBytes ≥ f.totalSize then ow.usedBytes - f.totalSize else 0 }
      files := mremove st.files fileId
      chunks := (List.range f.totalChunks).foldl
        (fun ch i => mremove ch (chunkKey fileId i)) st.chunks
      shareTokens :=
        match f.shareToken with
        | some s => mremove st.shareTokens s
        | none => st.shareTokens },
    ?_, ?_, ?_, ?_, ?_, ?_⟩
  · simp only [deleteFile, requireSession, hsess, huser, hfile]
    rw [if_neg hcond]
    simp only [howner]
  · intro j hj
    rw [mget_foldl_mremove (fun i => chunkKey fileId i) (List.range f.totalChunks)
      st.chunks (chunkKey fileId j)]
    have hany : (List.range f.totalChunks).any
        (fun i => decide (chunkKey fileId i = chunkKey fileId j)) = true :=
      List.any_eq_true.mpr ⟨j, List.mem_range.mpr hj, by simp⟩
    simp [hany]
  · intro s hs
    simp only [hs]
    simp [mget_mremove]
  · simp [mget_mremove]
  · refine ⟨_, mget_madd_self _ _ _, ?_⟩
    show (if ow.usedBytes ≥ f.totalSize then ow.usedBytes - f.totalSize else 0) =
      ow.usedBytes - f.totalSize
    split <;> omega
  · by_cases hsu : sess.userId = f.owner
    · simp only [deleteFile, requireSession, hsess, hsu, mget_madd_self]
      simp [mget_mremove]
    · have hmu : ∀ v : InternalUser,
          mget (madd st.users f.owner v) sess.userId = some u := by
        intro v
        rw [mget_madd, if_neg hsu]
        exact huser
      simp only [deleteFile, requireSession, hsess, hmu]
      simp [mget_mremove]

theorem deleteFile_spec_witness :
    (mget wSt3.sessions wTok = some wSess) ∧
    (mget wSt3.users wSess.userId = some wUser) ∧
    (mget wSt3.files 1 = some wFileS) ∧
    (wFileS.owner = wUser.id ∨ wUser.role = Role.Master ∨ wUser.role = Role.Staff) ∧
    (mget wSt3.users wFileS.owner = some wUser) ∧
    (∃ st', deleteFile wSt3 wTok 1 = Except.ok st' ∧
      (∀ j, j < wFileS.totalChunks → mget st'.chunks (chunkKey 1 j) = none) ∧
      (∀ s, wFileS.shareToken = some s → mget st'.shareTokens s = none) ∧
      mget st'.files 1 = none ∧
      (∃ ow', mget st'.users wFileS.owner = some ow' ∧
        ow'.usedBytes = wUser.usedBytes - wFileS.totalSize) ∧
      deleteFile st' wTok 1 = Except.error Err.fileNotFound) :=
  ⟨by decide, by decide, by decide, by decide, by decide,
    deleteFile_spec wSt3 wTok 1 wSess wUser wFileS wUser
      (by decide) (by decide) (by decide) (by decide) (by decide)⟩

/-- C8: `downloadFile`'s authorization order for an existing file: a supplied
share token that the share-token map binds to this exact fileId grants access
unconditionally — the result is the assembly outcome for any value of the
session argument, with no ownership check; a share token not bound to this
fileId grants nothing — with no session the call fails
`provideSessionOrShareToken`, and with a valid session the owner-or-elevated
rule decides: owners and Master/Staff proceed to assembly, anyone else fails
`notFileOwner`. -/
theorem downloadFile_auth_order (st : St) (fileId : Nat) (f : File)
    (hfile : mget st.files fileId = some f) :
    (∀ s, mget st.shareTokens s = some fileId →
      ∀ tokOpt, downloadFile st fileId tokOpt (some s) = assembleFile st f fileId)
    ∧ (∀ s, mget st.shareTokens s ≠ some fileId →
        downloadFile st fileId none (some s) =
          Except.error Err.provideSessionOrShareToken)
    ∧ (∀ s token sess u, mget st.shareTokens s ≠ some fileId →
        mget st.sessions token = some sess →
        mget st.users sess.userId = some u →
        (f.owner = u.id ∨ u.role = Role.Master ∨ u.role = Role.Staff) →
        downloadFile st fileId (some token) (some s) = assembleFile st f fileId)
    ∧ (∀ s token sess u, mget st.shareTokens s ≠ some fileId →
        mget st.sessions token = some sess →
        mget st.users sess.userId = some u →
        f.owner ≠ u.id → u.role ≠ Role.Master → u.role ≠ Role.Staff →
        downloadFile st fileId (some token) (some s) =
          Except.error Err.notFileOwner) := by
  refine ⟨?_, ?_, ?_, ?_⟩
  · intro s hst tokOpt
    simp [downloadFile, hfile, hst]
  · intro s hst
    cases hmg : mget st.shareTokens s with
    | none => simp [downloadFile, hfile, hmg]
    | some fid =>
      have hne : fid ≠ fileId := by
        intro h
        rw [hmg, h] at hst
        exact hst rfl
      simp [downloadFile, hfile, hmg, hne]
  · intro s token sess u hst hsess huser hauth
    cases hmg : mget st.shareTokens s with
    | none => simp [downloadFile, hfile, hmg, requireSession, hsess, huser, hauth]
    | some fid =>
      have hne : fid ≠ fileId := by
        intro h
        rw [hmg, h] at hst
        exact hst rfl
      simp [downloadFile, hfile, hmg, hne, requireSession, hsess, huser, hauth]
  · intro s token sess u hst hsess huser h1 h2 h3
    cases hmg : mget st.shareTokens s with
    | none => simp [downloadFile, hfile, hmg, requireSession, hsess, huser, h1, h2, h3]
    | some fid =>
      have hne : fid ≠ fileId := by
        intro h
        rw [hmg, h] at hst
        exact hst rfl
      simp [downloadFile, hfile, hmg, hne, requireSession, hsess, huser, h1, h2, h3]

theorem downloadFile_auth_order_witness :
    (mget wSt3.files 1 = some wFileS) ∧
    ((∀ s, mget wSt3.shareTokens s = some 1 →
      ∀ tokOpt, downloadFile wSt3 1 tokOpt (some s) = assembleFile wSt3 wFileS 1)
    ∧ (∀ s, mget wSt3.shareTokens s ≠ some 1 →
        downloadFile wSt3 1 none (some s) =
          Except.error Err.provideSessionOrShareToken)
    ∧ (∀ s token sess u, mget wSt3.shareTokens s ≠ some 1 →
        mget wSt3.sessions token = some sess →
        mget wSt3.users sess.userId = some u →
        (wFileS.owner = u.id ∨ u.role = Role.Master ∨ u.role = Role.Staff) →
        downloadFile wSt3 1 (some token) (some s) = assembleFile wSt3 wFileS 1)
    ∧ (∀ s token sess u, mget wSt3.shareTokens s ≠ some 1 →
        mget wSt3.sessions token = some sess →
        mget wSt3.users sess.userId = some u →
        wFileS.owner ≠ u.id → u.role ≠ Role.Master → u.role ≠ Role.Staff →
        downloadFile wSt3 1 (some token) (some s) =
          Except.error Err.notFileOwner)) :=
  ⟨by decide, downloadFile_auth_order wSt3 1 wFileS (by decide)⟩

/-- C9: ownership/role authorization on an existing file: with a valid session
whose user is neither the file's owner nor Master/Staff, each of `uploadChunk`,
`finalizeUpload`, `deleteFile`, `generateShareLink`, and `downloadFile`
(without a share token) fails with the `notFileOwner` unauthorized trap — and a
trap rolls the whole message back, which the embedding captures by returning an
error carrying no state, so no state is changed; when the caller is the owner
or has role Master or Staff the same check always passes: none of these
operations can return an Unauthorized-class error. -/
theorem ownership_authorization (st : St) (token : String) (fileId idx : Nat)
    (data : Chunk) (now : Int) (sess : Session) (u : InternalUser) (f : File)
    (hsess : mget st.sessions token = some sess)
    (huser : mget st.users sess.userId = some u)
    (hfile : mget st.files fileId = some f) :
    ((f.owner ≠ u.id ∧ u.role ≠ Role.Master ∧ u.role ≠ Role.Staff) →
      uploadChunk st token fileId idx data = Except.error Err.notFileOwner ∧
      finalizeUpload st token fileId = Except.error Err.notFileOwner ∧
      deleteFile st token fileId = Except.error Err.notFileOwner ∧
      generateShareLink st token fileId now = Except.error Err.notFileOwner ∧
      downloadFile st fileId (some token) none = Except.error Err.notFileOwner)
    ∧ ((f.owner = u.id ∨ u.role = Role.Master ∨ u.role = Role.Staff) →
      (∀ e, uploadChunk st token fileId idx data = Except.error e →
        e.isAuthError = false) ∧
      (∀ e, finalizeUpload st token fileId = Except.error e →
        e.isAuthError = false) ∧
      (∀ e, deleteFile st token fileId = Except.error e →
        e.isAuthError = false) ∧
      (∀ e, generateShareLink st token fileId now = Except.error e →
        e.isAuthError = false) ∧
      (∀ e, downloadFile st fileId (some token) none = Except.error e →
        e.isAuthError = false)) := by
  constructor
  · intro hcond
    refine ⟨?_, ?_, ?_, ?_, ?_⟩
    · simp only [uploadChunk, requireSession, hsess, huser, hfile]
      rw [if_pos hcond]
    · simp only [finalizeUpload, requireSession, hsess, huser, hfile]
      rw [if_pos hcond]
    · simp only [deleteFile, requireSession, hsess, huser, hfile]
      rw [if_pos hcond]
    · simp only [generateShareLink, requireSession, hsess, huser, hfile]
      rw [if_pos hcond]
    · obtain ⟨h1, h2, h3⟩ := hcond
      simp [downloadFile, hfile, requireSession, hsess, huser, h1, h2, h3]
  · intro hauth
    have hcond : ¬ (f.owner ≠ u.id ∧ u.role ≠ Role.Master ∧ u.role ≠ Role.Staff) := by
      tauto
    refine ⟨?_, ?_, ?_, ?_, ?_⟩
    · intro e h
      simp only [uploadChunk, requireSession, hsess, huser, hfile] at h
      rw [if_neg hcond] at h
      cases h
    · intro e h
      simp only [finalizeUpload, requireSession, hsess, huser, hfile] at h
      rw [if_neg hcond] at h
      cases hfm : firstMissingChunk st.chunks fileId f.totalChunks with
      | some i =>
        rw [hfm] at h
        cases h
        rfl
      | none =>
        rw [hfm] at h
        cases h
    · intro e h
      simp only [deleteFile, requireSession, hsess, huser, hfile] at h
      rw [if_neg hcond] at h
      cases h
    · intro e h
      simp only [generateShareLink, requireSession, hsess, huser, hfile] at h
      rw [if_neg hcond] at h
      cases hshare : f.shareToken with
      | some s =>
        rw [hshare] at h
        cases h
      | none =>
        rw [hshare] at h
        cases h
    · intro e h
      have hdl : downloadFile st fileId (some token) none = assembleFile st f fileId := by
        simp [downloadFile, hfile, requireSession, hsess, huser, hauth]
      rw [hdl] at h
      cases hcp : collectParts st.chunks fileId (List.range f.totalChunks) with
      | error e2 =>
        simp only [assembleFile, hcp] at h
        cases h
        obtain ⟨i, hi⟩ := collectParts_error st.chunks fileId _ _ hcp
        rw [hi]
        rfl
      | ok parts =>
        simp only [assembleFile, hcp] at h
        cases hemp : parts.isEmpty with
        | true =>
          rw [hemp] at h
          simp at h
          subst h
          rfl
        | false =>
          rw [hemp] at h
          simp at h

theorem ownership_authorization_witness :
    (mget wSt1.sessions wTok = some wSess) ∧
    (mget wSt1.users wSess.userId = some wUser) ∧
    (mget wSt1.files 1 = some wFile) ∧
    (((wFile.owner ≠ wUser.id ∧ wUser.role ≠ Role.Master ∧ wUser.role ≠ Role.Staff) →
      uploadChunk wSt1 wTok 1 0 [7] = Except.error Err.notFileOwner ∧
      finalizeUpload wSt1 wTok 1 = Except.error Err.notFileOwner ∧
      deleteFile wSt1 wTok 1 = Except.error Err.notFileOwner ∧
      generateShareLink wSt1 wTok 1 0 = Except.error Err.notFileOwner ∧
      downloadFile wSt1 1 (some wTok) none = Except.error Err.notFileOwner)
    ∧ ((wFile.owner = wUser.id ∨ wUser.role = Role.Master ∨ wUser.role = Role.Staff) →
      (∀ e, uploadChunk wSt1 wTok 1 0 [7] = Except.error e →
        e.isAuthError = false) ∧
      (∀ e, finalizeUpload wSt1 wTok 1 = Except.error e →
        e.isAuthError = false) ∧
      (∀ e, deleteFile wSt1 wTok 1 = Except.error e →
        e.isAuthError = false) ∧
      (∀ e, generateShareLink wSt1 wTok 1 0 = Except.error e →
        e.isAuthError = false) ∧
      (∀ e, downloadFile wSt1 1 (some wTok) none = Except.error e →
        e.isAuthError = false))) :=
  ⟨by decide, by decide, by decide,
    ownership_authorization wSt1 wTok 1 0 [7] 0 wSess wUser wFile
      (by decide) (by decide) (by decide)⟩

/-- C10: out-of-range chunk indices: for an existing file with
`totalChunks = N` and an index `idx ≥ N`, an authorized `uploadChunk` succeeds
and stores the blob under `(fileId, idx)`, but the returned
`chunksPresentCount` equals the scan of indices `< N` over the previous chunk
map (the new blob is never counted), `finalizeUpload`'s completeness scan and
`downloadFile`'s assembly are unchanged by it, and `deleteFile` leaves the
blob at index `idx` in the chunk map. -/
theorem uploadChunk_out_of_range (st : St) (token : String) (fileId idx : Nat)
    (data : Chunk) (sess : Session) (u : InternalUser) (f : File)
    (hsess : mget st.sessions token = some sess)
    (huser : mget st.users sess.userId = some u)
    (hfile : mget st.files fileId = some f)
    (hauth : f.owner = u.id ∨ u.role = Role.Master ∨ u.role = Role.Staff)
    (hidx : f.totalChunks ≤ idx) :
    ∃ st1,
      uploadChunk st token fileId idx data =
        Except.ok (countPresent st.chunks fileId f.totalChunks, st1) ∧
      mget st1.chunks (chunkKey fileId idx) = some data ∧
      firstMissingChunk st1.chunks fileId f.totalChunks =
        firstMissingChunk st.chunks fileId f.totalChunks ∧
      collectParts st1.chunks fileId (List.range f.totalChunks) =
        collectParts st.chunks fileId (List.range f.totalChunks) ∧
      ∃ st2, deleteFile st1 token fileId = Except.ok st2 ∧
        mget st2.chunks (chunkKey fileId idx) = some data := by
  have hcond : ¬ (f.owner ≠ u.id ∧ u.role ≠ Role.Master ∧ u.role ≠ Role.Staff) := by
    tauto
  have hpt : ∀ i, i < f.totalChunks →
      mget (madd st.chunks (chunkKey fileId idx) data) (chunkKey fileId i) =
        mget st.chunks (chunkKey fileId i) := by
    intro i hi
    rw [mget_madd]
    rw [if_neg (chunkKey_ne_right (by omega))]
  refine ⟨{ st with chunks := madd st.chunks (chunkKey fileId idx) data },
    ?_, ?_, ?_, ?_, ?_⟩
  · simp only [uploadChunk, requireSession, hsess, huser, hfile]
    rw [if_neg hcond]
    have hcnt : countPresent (madd st.chunks (chunkKey fileId idx) data) fileId
        f.totalChunks = countPresent st.chunks fileId f.totalChunks :=
      countPresent_congr _ _ _ _ hpt
    rw [hcnt]
  · exact mget_madd_self _ _ _
  · exact firstMissingChunk_congr _ _ _ _ hpt
  · exact collectParts_congr _ _ _ _ (fun i hi => hpt i (List.mem_range.mp hi))
  · refine ⟨{ st with
      users :=
        match mget st.users f.owner with
        | none => st.users
        | some owner =>
          madd st.users f.owner
            { owner with usedBytes :=
                if owner.usedBytes ≥ f.totalSize then owner.usedBytes - f.totalSize else 0 }
      files := mremove st.files fileId
      chunks := (List.range f.totalChunks).foldl
        (fun ch i => mremove ch (chunkKey fileId i))
        (madd st.chunks (chunkKey fileId idx) data)
      shareTokens :=
        match f.shareToken with
        | some s => mremove st.shareTokens s
        | none => st.shareTokens }, ?_, ?_⟩
    · simp only [deleteFile, requireSession, hsess, huser, hfile]
      rw [if_neg hcond]
    · rw [mget_foldl_mremove (fun i => chunkKey fileId i) (List.range f.totalChunks)
        (madd st.chunks (chunkKey fileId idx) data) (chunkKey fileId idx)]
      have hany : (List.range f.totalChunks).any
          (fun i => decide (chunkKey fileId i = chunkKey fileId idx)) = false := by
        rw [List.any_eq_false]
        intro i hi
        simp only [decide_eq_true_eq]
        exact chunkKey_ne_right (by have := List.mem_range.mp hi; omega)
      rw [hany]
      simp [mget_madd_self]

theorem uploadChunk_out_of_range_witness :
    (mget wSt1.sessions wTok = some wSess) ∧
    (mget wSt1.users wSess.userId = some wUser) ∧
    (mget wSt1.files 1 = some wFile) ∧
    (wFile.owner = wUser.id ∨ wUser.role = Role.Master ∨ wUser.role = Role.Staff) ∧
    (wFile.totalChunks ≤ 5) ∧
    (∃ st1,
      uploadChunk wSt1 wTok 1 5 [42] =
        Except.ok (countPresent wSt1.chunks 1 wFile.totalChunks, st1) ∧
      mget st1.chunks (chunkKey 1 5) = some [42] ∧
      firstMissingChunk st1.chunks 1 wFile.totalChunks =
        firstMissingChunk wSt1.chunks 1 wFile.totalChunks ∧
      collectParts st1.chunks 1 (List.range wFile.totalChunks) =
        collectParts wSt1.chunks 1 (List.range wFile.totalChunks) ∧
      ∃ st2, deleteFile st1 wTok 1 = Except.ok st2 ∧
        mget st2.chunks (chunkKey 1 5) = some [42]) :=
  ⟨by decide, by decide, by decide, by decide, by decide,
    uploadChunk_out_of_range wSt1 wTok 1 5 [42] wSess wUser wFile
      (by decide) (by decide) (by decide) (by decide) (by decide)⟩

/-- C3 counterexample: the invariant `usedBytes ≤ quota` is not preserved by
sequences of `initUpload` and `finalizeUpload`.  Starting from a user with
`quota = 10` and `usedBytes = 0`, two `initUpload` calls of `totalSize = 10`
both pass the quota check (usage is only credited at finalize), and finalizing
both files leaves `usedBytes = 20 > 10 = quota`.  (Both files declare
`totalChunks = 0`, so the completeness scan is trivially satisfied.) -/
theorem quota_invariant_counterexample :
    wUser.quota = 10 ∧
    ((initUpload wSt0 wTok wName wMime 10 0 0).bind (fun r1 =>
      (initUpload r1.2 wTok wName wMime 10 0 0).bind (fun r2 =>
        (finalizeUpload r2.2 wTok r1.1).bind (fun s3 =>
          (finalizeUpload s3 wTok r2.1).map (fun s4 =>
            (mget s4.users wUser.id).map InternalUser.usedBytes))))) =
      Except.ok (some 20) :=
  ⟨rfl, rfl⟩

/-- C3 amended: the committed-state invariant `usedBytes ≤ quota` holds only
for a single upload in flight, not for arbitrary sequences: `initUpload` never
changes any user's `usedBytes` (and admits a file only when
`usedBytes + totalSize ≤ quota` at init time), and `finalizeUpload` credits
the owner by exactly `totalSize` without re-checking the quota — so the
owner's `usedBytes` stays within quota whenever the finalized file's
init-time bound `usedBytes + totalSize ≤ quota` still holds at finalize time;
with several pending uploads (or a repeated finalize) the credits accumulate
unchecked and `usedBytes` can exceed `quota`. -/
theorem quota_soundness_amended (st : St) (token : String) :
    (∀ filename mimeType totalSize totalChunks now fid st',
      initUpload st token filename mimeType totalSize totalChunks now =
        Except.ok (fid, st') → st'.users = st.users)
    ∧ (∀ fileId sess u f ow,
        mget st.sessions token = some sess →
        mget st.users sess.userId = some u →
        mget st.files fileId = some f →
        (f.owner = u.id ∨ u.role = Role.Master ∨ u.role = Role.Staff) →
        (∀ i, i < f.totalChunks → (mget st.chunks (chunkKey fileId i)).isSome) →
        mget st.users f.owner = some ow →
        ow.usedBytes + f.totalSize ≤ ow.quota →
        ∃ st' ow', finalizeUpload st token fileId = Except.ok st' ∧
          mget st'.users f.owner = some ow' ∧
          ow'.usedBytes = ow.usedBytes + f.totalSize ∧
          ow'.quota = ow.quota ∧ ow'.usedBytes ≤ ow'.quota) := by
  constructor
  · intro filename mimeType totalSize totalChunks now fid st' h
    cases hrs : requireSession st token with
    | error e =>
      simp only [initUpload, hrs] at h
      cases h
    | ok user =>
      simp only [initUpload, hrs] at h
      by_cases hq : user.usedBytes + totalSize > user.quota
      · rw [if_pos hq] at h
        cases h
      · rw [if_neg hq] at h
        injection h with h1
        injection h1 with hfid hst
        rw [← hst]
  · intro fileId sess u f ow hsess huser hfile hauth hall howner hquota
    have hcond : ¬ (f.owner ≠ u.id ∧ u.role ≠ Role.Master ∧ u.role ≠ Role.Staff) := by
      tauto
    have hfm : firstMissingChunk st.chunks fileId f.totalChunks = none :=
      (firstMissingChunk_eq_none_iff _ _ _).mpr hall
    refine ⟨{ st with
        files := madd st.files fileId { f with status := UploadStatus.Complete }
        users := madd st.users f.owner
          { ow with usedBytes := ow.usedBytes + f.totalSize } },
      { ow with usedBytes := ow.usedBytes + f.totalSize }, ?_, ?_, rfl, rfl, ?_⟩
    · simp only [finalizeUpload, requireSession, hsess, huser, hfile]
      rw [if_neg hcond]
      simp only [hfm, howner]
    · exact mget_madd_self _ _ _
    · show ow.usedBytes + f.totalSize ≤ ow.quota
      exact hquota

/-- The file record created by `initUpload wSt1 wTok wName wMime 4 1 0`. -/
def wFile2 : File :=
  { fileId := 2, owner := 1, filename := wName, mimeType := wMime, totalSize := 4,
    totalChunks := 1, status := UploadStatus.Pending, created := 0, shareToken := none }

/-- The state produced by `initUpload wSt1 wTok wName wMime 4 1 0`. -/
def wSt4 : St := { wSt1 with fileIdCounter := 2, files := madd wSt1.files 2 wFile2 }

theorem quota_soundness_amended_witness :
    wSt4.users = wSt1.users ∧
    (mget wSt1.sessions wTok = some wSess) ∧
    (mget wSt1.users wSess.userId = some wUser) ∧
    (mget wSt1.files 1 = some wFile) ∧
    (wFile.owner = wUser.id ∨ wUser.role = Role.Master ∨ wUser.role = Role.Staff) ∧
    (∀ i, i < wFile.totalChunks → (mget wSt1.chunks (chunkKey 1 i)).isSome) ∧
    (mget wSt1.users wFile.owner = some wUser) ∧
    (wUser.usedBytes + wFile.totalSize ≤ wUser.quota) ∧
    (∃ st' ow', finalizeUpload wSt1 wTok 1 = Except.ok st' ∧
      mget st'.users wFile.owner = some ow' ∧
      ow'.usedBytes = wUser.usedBytes + wFile.totalSize ∧
      ow'.quota = wUser.quota ∧ ow'.usedBytes ≤ ow'.quota) :=
  ⟨(quota_soundness_amended wSt1 wTok).1 wName wMime 4 1 0 2 wSt4 rfl,
    by decide, by decide, by decide, by decide, by decide, by decide, by decide,
    (quota_soundness_amended wSt1 wTok).2 1 wSess wUser wFile wUser
      (by decide) (by decide) (by decide) (by decide) (by decide) (by decide) (by decide)⟩

end LuidFiles
